import Mathlib

/-!
Shallow embedding of the `asyncmap` Go package (src/asyncmap.go): a typed,
nil-safe wrapper `SyncMap[K, V]` around Go's `sync.Map`.

Modelling choices, read off the source:

* The backing `sync.Map` holds `any`-typed keys and values.  A stored key is
  either a properly typed `K` (the only kind the typed API can insert) or an
  alien value of some other dynamic type; a stored value is either a properly
  typed non-nil `V`, the nil interface box (`value == nil` in Go, which arises
  when a nil value of an interface-like `V` is stored), or a value of a
  mismatched dynamic type.  These three cases are exactly the ones the source
  distinguishes with `value != nil` and `value.(V)`.
* The backing map is an association list with at most one live binding per
  key (lookups find the first binding, stores replace the first binding).
* `m.syncMap == nil` in Go (the zero value, before `lazyInit`) is modelled by
  the `inited` flag being `false`; `lazyInit` installs a fresh empty store.
* Whether a `V` value is the nil interface box is not decidable inside Lean,
  so the development is parametric in a predicate `isNil : V → Bool`
  (identically `false` for non-nilable value types such as `int`).
* Locks and goroutine interleavings are outside the sequential embedding;
  composite operations are modelled as the sequential traversals the source
  performs while holding the local lock.
-/

namespace AsyncMap

/-- A key as stored in the untyped backing `sync.Map`: either a value of the
declared key type `K`, or a value of some other dynamic type (`alien`,
tagged by a number so distinct alien keys stay distinct). -/
inductive AnyKey (K : Type) where
  | typed (k : K)
  | alien (id : Nat)
deriving DecidableEq, Repr

/-- A value as stored in the untyped backing `sync.Map`: a non-nil value of
the declared value type `V` (`typed`), the nil interface box (`nilBox`,
for which Go's `value != nil` is false and `value.(V)` fails), or a non-nil
value of a mismatched dynamic type (`mismatch`, for which `value.(V)`
fails). -/
inductive StoredVal (V : Type) where
  | typed (v : V)
  | nilBox
  | mismatch
deriving DecidableEq, Repr

/-- The state of a `SyncMap[K, V]` value: `inited` is whether `m.syncMap`
is non-nil, `entries` the contents of the backing `sync.Map` in traversal
order. -/
structure SyncMap (K V : Type) where
  inited : Bool
  entries : List (AnyKey K × StoredVal V)
deriving DecidableEq, Repr

variable {K V : Type} [DecidableEq K] [Inhabited V]

/-- Backing-store load: `sync.Map.Load`, `none` when the key is absent. -/
def smLoad : List (AnyKey K × StoredVal V) → AnyKey K → Option (StoredVal V)
  | [], _ => none
  | (k', v) :: rest, k => if k' = k then some v else smLoad rest k

/-- Backing-store store: `sync.Map.Store`, replacing the binding for the key
or appending a fresh one. -/
def smStore : List (AnyKey K × StoredVal V) → AnyKey K → StoredVal V →
    List (AnyKey K × StoredVal V)
  | [], k, v => [(k, v)]
  | (k', v') :: rest, k, v =>
    if k' = k then (k, v) :: rest else (k', v') :: smStore rest k v

/-- Backing-store delete: `sync.Map.Delete`, removing every binding for the
key. -/
def smDelete : List (AnyKey K × StoredVal V) → AnyKey K →
    List (AnyKey K × StoredVal V)
  | [], _ => []
  | (k', v') :: rest, k =>
    if k' = k then smDelete rest k else (k', v') :: smDelete rest k

/-- Go's `value.(V)` type assertion on an `any` result: yields the typed
value and whether the assertion succeeded; on failure the typed value is the
zero value of `V`.  The assertion fails on the nil box and on mismatched
dynamic types, and `value.(V)` of an absent (`nil`) result also fails. -/
def assertV : Option (StoredVal V) → V × Bool
  | some (StoredVal.typed v) => (v, true)
  | _ => (default, false)

/-- Go's `value != nil` test on an `any` result (`value` is nil both when
the key was absent and when the nil box was stored). -/
def notNilAny : Option (StoredVal V) → Bool
  | none => false
  | some StoredVal.nilBox => false
  | some _ => true

/-- The value actually placed in the backing store by `Store(key, value)`:
storing a nil value of `V` puts the nil interface box in the `any` slot. -/
def toStored (isNil : V → Bool) (v : V) : StoredVal V :=
  if isNil v then StoredVal.nilBox else StoredVal.typed v

/-- `lazyInit`: a zero-value map allocates a fresh empty backing store (and
local lock); an already initialized map is untouched. -/
def SyncMap.lazyInit (m : SyncMap K V) : SyncMap K V :=
  if m.inited then m else { inited := true, entries := [] }

/-- `Load`: backing load, then the type assertion, found only when the key
was present, the assertion succeeded and the value was not the nil box
(source line 66). -/
def SyncMap.Load (m : SyncMap K V) (key : K) : V × Bool :=
  let m := m.lazyInit
  let value := smLoad m.entries (AnyKey.typed key)
  let tv := assertV value
  (tv.1, tv.2 && value.isSome && notNilAny value)

/-- `Get`: the value for a key, or the zero value of `V` when the key is
absent, the stored value is the nil box, or the assertion fails. -/
def SyncMap.Get (m : SyncMap K V) (key : K) : V :=
  let m := m.lazyInit
  match smLoad m.entries (AnyKey.typed key) with
  | none => default
  | some StoredVal.nilBox => default
  | some StoredVal.mismatch => default
  | some (StoredVal.typed v) => v

/-- `GetOrDefault`: like `Get` but the missing-value result is the first
element of the variadic `defaultValue` list, or the zero value of `V` when
none is supplied. -/
def SyncMap.GetOrDefault (m : SyncMap K V) (key : K) (defaultValue : List V) : V :=
  let m := m.lazyInit
  let df := match defaultValue with
    | [] => (default : V)
    | d :: _ => d
  match smLoad m.entries (AnyKey.typed key) with
  | none => df
  | some StoredVal.nilBox => df
  | some StoredVal.mismatch => df
  | some (StoredVal.typed v) => v

/-- `Store`: unconditional overwrite in the backing store. -/
def SyncMap.Store (m : SyncMap K V) (isNil : V → Bool) (key : K) (value : V) :
    SyncMap K V :=
  let m := m.lazyInit
  { m with entries := smStore m.entries (AnyKey.typed key) (toStored isNil value) }

/-- `Delete`: remove the binding for the key from the backing store. -/
def SyncMap.Delete (m : SyncMap K V) (key : K) : SyncMap K V :=
  let m := m.lazyInit
  { m with entries := smDelete m.entries (AnyKey.typed key) }

/-- `LoadAndDelete`: the backing `sync.Map.LoadAndDelete` (previous value
and whether it was present), then the same found policy as `Load`. -/
def SyncMap.LoadAndDelete (m : SyncMap K V) (key : K) :
    SyncMap K V × V × Bool :=
  let m := m.lazyInit
  let value := smLoad m.entries (AnyKey.typed key)
  let m := { m with entries := smDelete m.entries (AnyKey.typed key) }
  let tv := assertV value
  (m, tv.1, tv.2 && value.isSome && notNilAny value)

/-- `LoadOrStore`: the backing `sync.Map.LoadOrStore` returns the existing
`any` value when the key is present (without storing), otherwise stores the
given value and returns it; the typed layer then asserts the returned value
and reports `loaded` only when the key was present and the assertion
succeeded (the source has no nil check here). -/
def SyncMap.LoadOrStore (m : SyncMap K V) (isNil : V → Bool) (key : K)
    (value : V) : SyncMap K V × V × Bool :=
  let m := m.lazyInit
  match smLoad m.entries (AnyKey.typed key) with
  | some old =>
    let tv := assertV (some old)
    (m, tv.1, true && tv.2)
  | none =>
    let stored := toStored isNil value
    let tv := assertV (some stored)
    ({ m with entries := smStore m.entries (AnyKey.typed key) stored }, tv.1,
      false && tv.2)

/-- `Swap`: the backing `sync.Map.Swap` stores the new value and returns the
previous one with a presence flag; the typed layer asserts the previous
value and reports `loaded` only when it was present and well typed (the
source has no nil check here). -/
def SyncMap.Swap (m : SyncMap K V) (isNil : V → Bool) (key : K) (value : V) :
    SyncMap K V × V × Bool :=
  let m := m.lazyInit
  let prev := smLoad m.entries (AnyKey.typed key)
  let tv := assertV prev
  ({ m with entries := smStore m.entries (AnyKey.typed key) (toStored isNil value) },
    tv.1, prev.isSome && tv.2)

/-- The zero value of the `SyncMap` struct: nil backing store, nil lock. -/
def zeroSyncMap : SyncMap K V := { inited := false, entries := [] }

/-- The behaviour of one invocation of a caller-supplied `Range` visitor on a
well-typed entry: signal continue, signal stop, or raise a panic. -/
inductive VisitRes where
  | cont
  | stop
  | fault
deriving DecidableEq, Repr

/-- Observable events of one `Range` traversal: a visitor invocation (with
the boolean the wrapped function hands back to `sync.Map.Range`), a
recovered visitor panic logged via `log.Printf`, or a failed key/value type
assertion logged via `log.Printf`.  In the two fault cases the wrapped
function returns `true`, so the traversal continues. -/
inductive RangeEvent (K V : Type) where
  | visited (k : K) (v : V) (continued : Bool)
  | faultLogged (k : K) (v : V)
  | assertLogged (k : AnyKey K)
deriving DecidableEq, Repr

/-- The event trace of `sync.Map.Range` applied to the wrapped visitor: for
each entry whose key asserts to `K` and whose value asserts to `V`, the
visitor runs (a recovered panic leaves `rtrn` at its initial `true`, so the
traversal continues); on an assertion failure the entry is skipped with a
diagnostic and the traversal continues; the traversal halts when the wrapped
function returns `false`. -/
def rangeEvents (fn : K → V → VisitRes) :
    List (AnyKey K × StoredVal V) → List (RangeEvent K V)
  | [] => []
  | (AnyKey.typed k, StoredVal.typed v) :: rest =>
    match fn k v with
    | VisitRes.cont => RangeEvent.visited k v true :: rangeEvents fn rest
    | VisitRes.stop => [RangeEvent.visited k v false]
    | VisitRes.fault => RangeEvent.faultLogged k v :: rangeEvents fn rest
  | (ak, _) :: rest => RangeEvent.assertLogged ak :: rangeEvents fn rest

/-- `Range`: after `lazyInit` (and under the local lock), traverse the
backing store with the wrapped visitor; the result is the map together with
the trace of visitor invocations and logged diagnostics. -/
def SyncMap.Range (m : SyncMap K V) (fn : K → V → VisitRes) :
    SyncMap K V × List (RangeEvent K V) :=
  (m.lazyInit, rangeEvents fn m.lazyInit.entries)

/-- The loop inside `Clear`: `sync.Map.Range` over the entries, deleting
each visited key from the backing store. -/
def clearLoop : List (AnyKey K × StoredVal V) →
    List (AnyKey K × StoredVal V) → List (AnyKey K × StoredVal V)
  | [], es => es
  | (k, _) :: rest, es => clearLoop rest (smDelete es k)

/-- `Clear`: under the local lock, range over the backing store deleting
every key. -/
def SyncMap.Clear (m : SyncMap K V) : SyncMap K V :=
  let m := m.lazyInit
  { m with entries := clearLoop m.entries m.entries }

/-- The effect of `Range` with a store-into-`out` visitor (the visitor used
by `Merge`): each well-typed entry is stored into `out` and the visitor
returns `true`; entries failing a type assertion are skipped with a
diagnostic. -/
def rangeStoreInto (isNil : V → Bool) (out : SyncMap K V) :
    List (AnyKey K × StoredVal V) → SyncMap K V
  | [] => out
  | (AnyKey.typed k, StoredVal.typed v) :: rest =>
    rangeStoreInto isNil (out.Store isNil k v) rest
  | _ :: rest => rangeStoreInto isNil out rest

/-- `Merge`: start from a zero-value destination, range over `a` storing
every entry, then range over `b` storing every entry, so on a key collision
the value from `b` overwrites the one from `a`. -/
def Merge (isNil : V → Bool) (a b : SyncMap K V) : SyncMap K V :=
  let out : SyncMap K V := zeroSyncMap
  let out := rangeStoreInto isNil out a.lazyInit.entries
  rangeStoreInto isNil out b.lazyInit.entries

/-- An entry reachable through the typed API: a typed key bound to a typed,
non-nil value. -/
def entryOk (isNil : V → Bool) : AnyKey K × StoredVal V → Bool
  | (AnyKey.typed _, StoredVal.typed v) => !(isNil v)
  | _ => false

/-- Well-formed map state: initialized, every entry typed and non-nil, and
no duplicate keys — the states reachable through the typed API. -/
def SyncMap.WF (isNil : V → Bool) (m : SyncMap K V) : Prop :=
  m.inited = true ∧ (∀ p ∈ m.entries, entryOk isNil p = true) ∧
    (m.entries.map Prod.fst).Nodup

/-! ### Helper lemmas about the backing-store primitives -/

set_option linter.unusedSectionVars false

theorem lazyInit_inited (m : SyncMap K V) : m.lazyInit.inited = true := by
  unfold SyncMap.lazyInit
  split
  · assumption
  · rfl

theorem lazyInit_of_inited (m : SyncMap K V) (h : m.inited = true) :
    m.lazyInit = m := by
  unfold SyncMap.lazyInit
  simp [h]

theorem lazyInit_idem (m : SyncMap K V) : m.lazyInit.lazyInit = m.lazyInit :=
  lazyInit_of_inited _ (lazyInit_inited m)

theorem smLoad_smStore (es : List (AnyKey K × StoredVal V)) (k k' : AnyKey K)
    (sv : StoredVal V) :
    smLoad (smStore es k sv) k' = if k = k' then some sv else smLoad es k' := by
  induction es with
  | nil =>
    by_cases h : k = k' <;> simp [smStore, smLoad, h]
  | cons p rest ih =>
    obtain ⟨pk, pv⟩ := p
    by_cases hpk : pk = k
    · subst hpk
      by_cases h : pk = k' <;> simp [smStore, smLoad, h]
    · by_cases h : pk = k'
      · subst h
        have hk : ¬ k = pk := fun hh => hpk hh.symm
        simp [smStore, smLoad, hpk, hk]
      · simp [smStore, smLoad, hpk, h, ih]

theorem smLoad_smDelete (es : List (AnyKey K × StoredVal V)) (k k' : AnyKey K) :
    smLoad (smDelete es k) k' = if k = k' then none else smLoad es k' := by
  induction es with
  | nil =>
    by_cases h : k = k' <;> simp [smDelete, smLoad, h]
  | cons p rest ih =>
    obtain ⟨pk, pv⟩ := p
    by_cases hpk : pk = k
    · subst hpk
      by_cases h : pk = k'
      · subst h
        simp [smDelete, smLoad, ih]
      · simp [smDelete, smLoad, h, ih]
    · by_cases h : pk = k'
      · subst h
        have hk : ¬ k = pk := fun hh => hpk hh.symm
        simp [smDelete, smLoad, hpk, hk]
      · simp [smDelete, smLoad, hpk, h, ih]

theorem mem_of_mem_smDelete (es : List (AnyKey K × StoredVal V))
    (k : AnyKey K) (p : AnyKey K × StoredVal V) (hp : p ∈ smDelete es k) :
    p ∈ es ∧ p.1 ≠ k := by
  induction es with
  | nil => simp [smDelete] at hp
  | cons q rest ih =>
    obtain ⟨qk, qv⟩ := q
    by_cases hq : qk = k
    · subst hq
      rw [show smDelete ((qk, qv) :: rest) qk = smDelete rest qk from by
        simp [smDelete]] at hp
      obtain ⟨h1, h2⟩ := ih hp
      exact ⟨List.mem_cons_of_mem _ h1, h2⟩
    · rw [show smDelete ((qk, qv) :: rest) k = (qk, qv) :: smDelete rest k from by
        simp [smDelete, hq]] at hp
      rcases List.mem_cons.mp hp with h | h
      · subst h
        exact ⟨List.mem_cons_self _ _, hq⟩
      · obtain ⟨h1, h2⟩ := ih h
        exact ⟨List.mem_cons_of_mem _ h1, h2⟩

theorem clearLoop_eq_nil (l : List (AnyKey K × StoredVal V)) :
    ∀ s : List (AnyKey K × StoredVal V),
      (∀ p ∈ s, ∃ q ∈ l, q.1 = p.1) → clearLoop l s = [] := by
  induction l with
  | nil =>
    intro s hs
    cases s with
    | nil => rfl
    | cons p rest =>
      obtain ⟨q, hq, _⟩ := hs p (List.mem_cons_self _ _)
      exact absurd hq (List.not_mem_nil q)
  | cons q rest ih =>
    intro s hs
    obtain ⟨qk, qv⟩ := q
    show clearLoop rest (smDelete s qk) = []
    apply ih
    intro p hp
    obtain ⟨hp1, hp2⟩ := mem_of_mem_smDelete s qk p hp
    obtain ⟨r, hr, hrk⟩ := hs p hp1
    rcases List.mem_cons.mp hr with hr1 | hr2
    · exfalso
      apply hp2
      rw [← hrk, hr1]
    · exact ⟨r, hr2, hrk⟩

theorem clear_entries (m : SyncMap K V) : m.Clear.entries = [] := by
  show clearLoop m.lazyInit.entries m.lazyInit.entries = []
  exact clearLoop_eq_nil _ _ (fun p hp => ⟨p, hp, rfl⟩)

theorem store_inited (m : SyncMap K V) (isNil : V → Bool) (k : K) (v : V) :
    (m.Store isNil k v).inited = true :=
  lazyInit_inited m

theorem store_entries (m : SyncMap K V) (isNil : V → Bool) (k : K) (v : V) :
    (m.Store isNil k v).entries =
      smStore m.lazyInit.entries (AnyKey.typed k) (toStored isNil v) := rfl

/-- The binding for a key that survives a left-to-right sequence of stores:
the last binding in the list wins. -/
def lookupLast : List (AnyKey K × StoredVal V) → AnyKey K → Option (StoredVal V)
  | [], _ => none
  | (k', v) :: rest, k =>
    match lookupLast rest k with
    | some w => some w
    | none => if k' = k then some v else none

theorem smLoad_rangeStoreInto (isNil : V → Bool)
    (l : List (AnyKey K × StoredVal V)) :
    ∀ out : SyncMap K V, (∀ p ∈ l, entryOk isNil p = true) → ∀ k : K,
      smLoad (rangeStoreInto isNil out l).lazyInit.entries (AnyKey.typed k) =
        match lookupLast l (AnyKey.typed k) with
        | some sv => some sv
        | none => smLoad out.lazyInit.entries (AnyKey.typed k) := by
  induction l with
  | nil =>
    intro out h k
    rfl
  | cons p rest ih =>
    intro out h k
    obtain ⟨ak, sv⟩ := p
    cases ak with
    | typed pk =>
      cases sv with
      | typed pv =>
        have hnil : isNil pv = false := by
          have := h _ (List.mem_cons_self _ _)
          simpa [entryOk] using this
        have hrest : ∀ p ∈ rest, entryOk isNil p = true :=
          fun p hp => h p (List.mem_cons_of_mem _ hp)
        have hout : (SyncMap.Store out isNil pk pv).lazyInit.entries =
            smStore out.lazyInit.entries (AnyKey.typed pk) (toStored isNil pv) := by
          rw [lazyInit_of_inited _ (store_inited out isNil pk pv)]
          exact store_entries out isNil pk pv
        show smLoad (rangeStoreInto isNil (SyncMap.Store out isNil pk pv)
            rest).lazyInit.entries (AnyKey.typed k) = _
        rw [ih _ hrest k, hout, smLoad_smStore]
        have hts : toStored isNil pv = StoredVal.typed pv := by
          simp [toStored, hnil]
        rw [hts]
        cases hll : lookupLast rest (AnyKey.typed k) with
        | some w => simp [lookupLast, hll]
        | none =>
          by_cases hpk : AnyKey.typed pk = AnyKey.typed k <;>
            simp [lookupLast, hll, hpk]
      | nilBox =>
        exact absurd (h _ (List.mem_cons_self _ _)) (by simp [entryOk])
      | mismatch =>
        exact absurd (h _ (List.mem_cons_self _ _)) (by simp [entryOk])
    | alien i =>
      exact absurd (h _ (List.mem_cons_self _ _)) (by simp [entryOk])

theorem smLoad_eq_none_of_not_mem (es : List (AnyKey K × StoredVal V))
    (k : AnyKey K) (h : k ∉ es.map Prod.fst) : smLoad es k = none := by
  induction es with
  | nil => rfl
  | cons p rest ih =>
    obtain ⟨pk, pv⟩ := p
    have h1 : ¬ pk = k := by
      intro hh
      exact h (by simp [hh])
    have h2 : k ∉ rest.map Prod.fst := by
      intro hh
      exact h (by simp [hh])
    simp [smLoad, h1, ih h2]

theorem lookupLast_eq_smLoad (es : List (AnyKey K × StoredVal V))
    (h : (es.map Prod.fst).Nodup) (k : AnyKey K) :
    lookupLast es k = smLoad es k := by
  induction es with
  | nil => rfl
  | cons p rest ih =>
    obtain ⟨pk, pv⟩ := p
    rw [List.map_cons] at h
    have h1 : pk ∉ rest.map Prod.fst := (List.nodup_cons.mp h).1
    have h2 : (rest.map Prod.fst).Nodup := (List.nodup_cons.mp h).2
    by_cases hk : pk = k
    · subst hk
      have : lookupLast rest pk = none := by
        rw [ih h2, smLoad_eq_none_of_not_mem rest pk h1]
      simp [lookupLast, smLoad, this]
    · cases hll : lookupLast rest k with
      | some w => simp [lookupLast, smLoad, hll, hk, ← ih h2]
      | none => simp [lookupLast, smLoad, hll, hk, ← ih h2]

theorem mem_of_smLoad_eq_some (es : List (AnyKey K × StoredVal V))
    (k : AnyKey K) (sv : StoredVal V) (h : smLoad es k = some sv) :
    (k, sv) ∈ es := by
  induction es with
  | nil => simp [smLoad] at h
  | cons p rest ih =>
    obtain ⟨pk, pv⟩ := p
    by_cases hk : pk = k
    · subst hk
      simp [smLoad] at h
      subst h
      exact List.mem_cons_self _ _
    · simp [smLoad, hk] at h
      exact List.mem_cons_of_mem _ (ih h)

/-! ### Shared facts about the typed accessor layer -/

theorem load_absent (m : SyncMap K V) (k : K)
    (h : smLoad m.lazyInit.entries (AnyKey.typed k) = none) :
    m.Load k = (default, false) := by
  simp [SyncMap.Load, h, assertV, notNilAny]

theorem load_nilBox (m : SyncMap K V) (k : K)
    (h : smLoad m.lazyInit.entries (AnyKey.typed k) = some StoredVal.nilBox) :
    m.Load k = (default, false) := by
  simp [SyncMap.Load, h, assertV, notNilAny]

theorem load_mismatch (m : SyncMap K V) (k : K)
    (h : smLoad m.lazyInit.entries (AnyKey.typed k) = some StoredVal.mismatch) :
    m.Load k = (default, false) := by
  simp [SyncMap.Load, h, assertV, notNilAny]

theorem load_typed (m : SyncMap K V) (k : K) (v : V)
    (h : smLoad m.lazyInit.entries (AnyKey.typed k) = some (StoredVal.typed v)) :
    m.Load k = (v, true) := by
  simp [SyncMap.Load, h, assertV, notNilAny]

theorem store_lazyInit (m : SyncMap K V) (isNil : V → Bool) (k : K) (v : V) :
    (m.Store isNil k v).lazyInit = m.Store isNil k v :=
  lazyInit_of_inited _ (store_inited m isNil k v)

theorem load_after_store (isNil : V → Bool) (m : SyncMap K V) (k : K) (v : V)
    (hv : isNil v = false) : (m.Store isNil k v).Load k = (v, true) := by
  apply load_typed
  rw [store_lazyInit, store_entries, smLoad_smStore]
  simp [toStored, hv]

theorem load_after_store_nil (isNil : V → Bool) (m : SyncMap K V) (k : K)
    (v : V) (hv : isNil v = true) :
    (m.Store isNil k v).Load k = (default, false) := by
  apply load_nilBox
  rw [store_lazyInit, store_entries, smLoad_smStore]
  simp [toStored, hv]

theorem delete_inited (m : SyncMap K V) (k : K) : (m.Delete k).inited = true :=
  lazyInit_inited m

theorem load_after_delete (m : SyncMap K V) (k : K) :
    (m.Delete k).Load k = (default, false) := by
  apply load_absent
  rw [lazyInit_of_inited _ (delete_inited m k)]
  show smLoad (smDelete m.lazyInit.entries (AnyKey.typed k)) (AnyKey.typed k) = none
  rw [smLoad_smDelete]
  simp

/-! ### Claim theorems -/

/-- Claim C1: for every key never stored (absent from the backing store),
`Load` returns the zero value and `false`; and for every non-nil value `v`
of the declared type, `Load` after `Store(k, v)` returns `(v, true)`. -/
theorem claim_load_store_roundtrip (isNil : V → Bool) (m : SyncMap K V)
    (k : K) :
    (smLoad m.lazyInit.entries (AnyKey.typed k) = none →
      m.Load k = (default, false)) ∧
    (∀ v : V, isNil v = false → (m.Store isNil k v).Load k = (v, true)) :=
  ⟨fun h => load_absent m k h, fun v hv => load_after_store isNil m k v hv⟩

/-- Witness for C1 at a concrete instance (`K = Nat`, `V = Option Nat`,
the nil marker being `none`). -/
theorem claim_load_store_roundtrip_witness :
    ((zeroSyncMap : SyncMap Nat (Option Nat)).Load 1 = (none, false)) ∧
    (((zeroSyncMap : SyncMap Nat (Option Nat)).Store Option.isNone 1
        (some 2)).Load 1 = (some 2, true)) :=
  ⟨(claim_load_store_roundtrip Option.isNone zeroSyncMap 1).1 (by decide),
   (claim_load_store_roundtrip Option.isNone zeroSyncMap 1).2 (some 2)
     (by decide)⟩

/-- Claim C2: storing the nil marker makes the key read as absent —
`Load` after `Store(k, nil)` returns the zero value and `false`, exactly
the observation made after deleting the key. -/
theorem claim_store_nil_reads_absent (isNil : V → Bool) (m : SyncMap K V)
    (k : K) (v : V) (hv : isNil v = true) :
    (m.Store isNil k v).Load k = (default, false) ∧
    (m.Store isNil k v).Load k = (m.Delete k).Load k := by
  refine ⟨load_after_store_nil isNil m k v hv, ?_⟩
  rw [load_after_store_nil isNil m k v hv, load_after_delete]

/-- Witness for C2: storing `none` at key 1 reads back as not found, the
same as after a delete. -/
theorem claim_store_nil_reads_absent_witness :
    (((zeroSyncMap : SyncMap Nat (Option Nat)).Store Option.isNone 1
        none).Load 1 = (none, false)) ∧
    (((zeroSyncMap : SyncMap Nat (Option Nat)).Store Option.isNone 1
        none).Load 1 =
      ((zeroSyncMap : SyncMap Nat (Option Nat)).Delete 1).Load 1) :=
  claim_store_nil_reads_absent Option.isNone zeroSyncMap 1 none (by decide)

/-- Counterexample to claim C3 as stated: on a key holding the nil marker
(which `Load` reports as not found), `LoadOrStore(1, some 5)` does not
store `some 5` — the backing `sync.Map.LoadOrStore` sees the key as
present — so it neither returns `(some 5, false)` nor makes a subsequent
`Load` return `(some 5, true)`. -/
theorem claim_loadOrStore_nil_counterexample :
    ¬ ((((zeroSyncMap : SyncMap Nat (Option Nat)).Store Option.isNone 1
          none).LoadOrStore Option.isNone 1 (some 5)).2 = (some 5, false) ∧
       ((((zeroSyncMap : SyncMap Nat (Option Nat)).Store Option.isNone 1
          none).LoadOrStore Option.isNone 1 (some 5)).1).Load 1 =
         (some 5, true)) := by
  decide

/-- Claim C3 (amended): `LoadOrStore(k, v)` on a truly absent key stores
`v` and returns `(v, false)`, and for non-nil `v` a subsequent `Load(k)`
returns `(v, true)`; on a key holding a present typed value it returns
`(existing, true)` and leaves the map unchanged; but on a key holding the
nil marker — although that key reads as absent — it does NOT store `v`: it
returns `(zero, false)` and leaves the nil entry in place. -/
theorem claim_loadOrStore_cases (isNil : V → Bool) (m : SyncMap K V)
    (k : K) (v : V) :
    (smLoad m.lazyInit.entries (AnyKey.typed k) = none → isNil v = false →
      (m.LoadOrStore isNil k v).2 = (v, false) ∧
      ((m.LoadOrStore isNil k v).1).Load k = (v, true)) ∧
    (∀ p : V,
      smLoad m.lazyInit.entries (AnyKey.typed k) = some (StoredVal.typed p) →
      (m.LoadOrStore isNil k v).2 = (p, true) ∧
      (m.LoadOrStore isNil k v).1 = m.lazyInit) ∧
    (smLoad m.lazyInit.entries (AnyKey.typed k) = some StoredVal.nilBox →
      (m.LoadOrStore isNil k v).2 = (default, false) ∧
      (m.LoadOrStore isNil k v).1 = m.lazyInit) := by
  refine ⟨?_, ?_, ?_⟩
  · intro h hv
    have h1 : ((m.LoadOrStore isNil k v).1).inited = true := by
      simp [SyncMap.LoadOrStore, h, lazyInit_inited]
    have h2 : ((m.LoadOrStore isNil k v).1).entries =
        smStore m.lazyInit.entries (AnyKey.typed k) (toStored isNil v) := by
      simp [SyncMap.LoadOrStore, h]
    constructor
    · simp [SyncMap.LoadOrStore, h, assertV, toStored, hv]
    · apply load_typed
      rw [lazyInit_of_inited _ h1, h2, smLoad_smStore]
      simp [toStored, hv]
  · intro p h
    constructor
    · simp [SyncMap.LoadOrStore, h, assertV]
    · simp [SyncMap.LoadOrStore, h]
  · intro h
    constructor
    · simp [SyncMap.LoadOrStore, h, assertV]
    · simp [SyncMap.LoadOrStore, h]

/-- Witness for the amended C3: all three cases at concrete inputs. -/
theorem claim_loadOrStore_cases_witness :
    (((zeroSyncMap : SyncMap Nat (Option Nat)).LoadOrStore Option.isNone 1
        (some 5)).2 = (some 5, false) ∧
     ((((zeroSyncMap : SyncMap Nat (Option Nat)).LoadOrStore Option.isNone 1
        (some 5)).1).Load 1 = (some 5, true))) ∧
    ((((zeroSyncMap : SyncMap Nat (Option Nat)).Store Option.isNone 1
        (some 7)).LoadOrStore Option.isNone 1 (some 5)).2 = (some 7, true)) ∧
    ((((zeroSyncMap : SyncMap Nat (Option Nat)).Store Option.isNone 1
        none).LoadOrStore Option.isNone 1 (some 5)).2 = (none, false)) :=
  ⟨(claim_loadOrStore_cases Option.isNone zeroSyncMap 1 (some 5)).1
      (by decide) (by decide),
   ((claim_loadOrStore_cases Option.isNone
      ((zeroSyncMap : SyncMap Nat (Option Nat)).Store Option.isNone 1
        (some 7)) 1 (some 5)).2.1 (some 7) (by decide)).1,
   ((claim_loadOrStore_cases Option.isNone
      ((zeroSyncMap : SyncMap Nat (Option Nat)).Store Option.isNone 1
        none) 1 (some 5)).2.2 (by decide)).1⟩

/-- Claim C4: during `Range`, a visitor panic on an entry, or an entry
whose key or value fails its type assertion, is logged as a diagnostic and
traversal continues over the remaining entries exactly as if the visitor
had returned the continue signal; the fault does not escape the traversal. -/
theorem claim_range_fault_isolation (fn : K → V → VisitRes) (k : K) (v : V)
    (rest : List (AnyKey K × StoredVal V)) :
    (fn k v = VisitRes.fault →
      (SyncMap.Range ⟨true, (AnyKey.typed k, StoredVal.typed v) :: rest⟩ fn).2 =
        RangeEvent.faultLogged k v :: rangeEvents fn rest) ∧
    ((SyncMap.Range ⟨true, (AnyKey.typed k, StoredVal.nilBox) :: rest⟩ fn).2 =
      RangeEvent.assertLogged (AnyKey.typed k) :: rangeEvents fn rest) ∧
    ((SyncMap.Range ⟨true, (AnyKey.typed k, StoredVal.mismatch) :: rest⟩ fn).2 =
      RangeEvent.assertLogged (AnyKey.typed k) :: rangeEvents fn rest) ∧
    (∀ (i : Nat) (sv : StoredVal V),
      (SyncMap.Range ⟨true, (AnyKey.alien i, sv) :: rest⟩ fn).2 =
        RangeEvent.assertLogged (AnyKey.alien i) :: rangeEvents fn rest) := by
  refine ⟨?_, ?_, ?_, ?_⟩
  · intro h
    simp [SyncMap.Range, SyncMap.lazyInit, rangeEvents, h]
  · simp [SyncMap.Range, SyncMap.lazyInit, rangeEvents]
  · simp [SyncMap.Range, SyncMap.lazyInit, rangeEvents]
  · intro i sv
    cases sv <;> simp [SyncMap.Range, SyncMap.lazyInit, rangeEvents]

/-- Witness for C4: a visitor that always panics on a two-entry map is
logged on the first entry and still reaches the second entry. -/
theorem claim_range_fault_isolation_witness :
    (SyncMap.Range (K := Nat) (V := Option Nat)
      ⟨true, (AnyKey.typed 1, StoredVal.typed (some 4)) ::
        [(AnyKey.typed 2, StoredVal.typed (some 6))]⟩
      (fun _ _ => VisitRes.fault)).2 =
      RangeEvent.faultLogged 1 (some 4) ::
        rangeEvents (fun _ _ => VisitRes.fault)
          [(AnyKey.typed 2, StoredVal.typed (some 6))] :=
  (claim_range_fault_isolation (fun _ _ => VisitRes.fault) 1 (some 4)
    [(AnyKey.typed 2, StoredVal.typed (some 6))]).1 rfl

/-- Claim C5: `Clear` removes every entry — a `Range` right after `Clear`
produces no events at all, in particular zero visitor invocations — and the
map stays initialized and usable: a subsequent `Store`/`Load` round trip
behaves normally. -/
theorem claim_clear_empties (m : SyncMap K V) (fn : K → V → VisitRes)
    (isNil : V → Bool) (k : K) (v : V) (hv : isNil v = false) :
    (m.Clear.Range fn).2 = [] ∧ m.Clear.inited = true ∧
    (m.Clear.Store isNil k v).Load k = (v, true) := by
  have hinit : m.Clear.inited = true := lazyInit_inited m
  refine ⟨?_, hinit, load_after_store isNil m.Clear k v hv⟩
  show rangeEvents fn m.Clear.lazyInit.entries = []
  rw [lazyInit_of_inited _ hinit, clear_entries]
  rfl

/-- Witness for C5: clearing a two-entry map, ranging over it (zero
events), then storing and loading again. -/
theorem claim_clear_empties_witness :
    ((((zeroSyncMap : SyncMap Nat (Option Nat)).Store Option.isNone 1
        (some 4)).Store Option.isNone 2 (some 6)).Clear.Range
        (fun _ _ => VisitRes.cont)).2 = [] ∧
    (((zeroSyncMap : SyncMap Nat (Option Nat)).Store Option.isNone 1
        (some 4)).Store Option.isNone 2 (some 6)).Clear.inited = true ∧
    ((((zeroSyncMap : SyncMap Nat (Option Nat)).Store Option.isNone 1
        (some 4)).Store Option.isNone 2 (some 6)).Clear.Store Option.isNone 1
        (some 9)).Load 1 = (some 9, true) :=
  claim_clear_empties
    (((zeroSyncMap : SyncMap Nat (Option Nat)).Store Option.isNone 1
      (some 4)).Store Option.isNone 2 (some 6))
    (fun _ _ => VisitRes.cont) Option.isNone 1 (some 9) (by decide)

/-- Claim C6: `LoadAndDelete` on a key holding a present typed value
returns that value with `true` and removes the entry, so a subsequent
`Load` returns the zero value and `false`. -/
theorem claim_loadAndDelete_removes (m : SyncMap K V) (k : K) (v : V)
    (h : smLoad m.lazyInit.entries (AnyKey.typed k) = some (StoredVal.typed v)) :
    (m.LoadAndDelete k).2 = (v, true) ∧
    ((m.LoadAndDelete k).1).Load k = (default, false) := by
  constructor
  · simp [SyncMap.LoadAndDelete, h, assertV, notNilAny]
  · have h1 : ((m.LoadAndDelete k).1).inited = true := lazyInit_inited m
    have h2 : ((m.LoadAndDelete k).1).entries =
        smDelete m.lazyInit.entries (AnyKey.typed k) := rfl
    apply load_absent
    rw [lazyInit_of_inited _ h1, h2, smLoad_smDelete]
    simp

/-- Witness for C6 on a concrete one-entry map. -/
theorem claim_loadAndDelete_removes_witness :
    ((((zeroSyncMap : SyncMap Nat (Option Nat)).Store Option.isNone 1
        (some 4)).LoadAndDelete 1).2 = (some 4, true)) ∧
    (((((zeroSyncMap : SyncMap Nat (Option Nat)).Store Option.isNone 1
        (some 4)).LoadAndDelete 1).1).Load 1 = (none, false)) :=
  claim_loadAndDelete_removes
    ((zeroSyncMap : SyncMap Nat (Option Nat)).Store Option.isNone 1 (some 4))
    1 (some 4) (by decide)

/-- Claim C7: `Swap(k, v)` on a key holding a present typed value returns
`(previous, true)` and replaces the stored value with `v`; on an absent key
it returns `(zero, false)` and stores `v`.  In both cases the new backing
state is exactly a store of `v`, and for non-nil `v` a subsequent `Load`
returns `(v, true)`. -/
theorem claim_swap_cases (isNil : V → Bool) (m : SyncMap K V) (k : K)
    (v : V) :
    (∀ p : V,
      smLoad m.lazyInit.entries (AnyKey.typed k) = some (StoredVal.typed p) →
      (m.Swap isNil k v).2 = (p, true) ∧
      ((m.Swap isNil k v).1).entries =
        smStore m.lazyInit.entries (AnyKey.typed k) (toStored isNil v) ∧
      (isNil v = false → ((m.Swap isNil k v).1).Load k = (v, true))) ∧
    (smLoad m.lazyInit.entries (AnyKey.typed k) = none →
      (m.Swap isNil k v).2 = (default, false) ∧
      ((m.Swap isNil k v).1).entries =
        smStore m.lazyInit.entries (AnyKey.typed k) (toStored isNil v) ∧
      (isNil v = false → ((m.Swap isNil k v).1).Load k = (v, true))) := by
  have h1 : ((m.Swap isNil k v).1).inited = true := lazyInit_inited m
  have h2 : ((m.Swap isNil k v).1).entries =
      smStore m.lazyInit.entries (AnyKey.typed k) (toStored isNil v) := rfl
  have h3 : ∀ hv : isNil v = false, ((m.Swap isNil k v).1).Load k = (v, true) := by
    intro hv
    apply load_typed
    rw [lazyInit_of_inited _ h1, h2, smLoad_smStore]
    simp [toStored, hv]
  constructor
  · intro p h
    exact ⟨by simp [SyncMap.Swap, h, assertV], h2, h3⟩
  · intro h
    exact ⟨by simp [SyncMap.Swap, h, assertV], h2, h3⟩

/-- Witness for C7: swapping on a present key and on an absent key. -/
theorem claim_swap_cases_witness :
    ((((zeroSyncMap : SyncMap Nat (Option Nat)).Store Option.isNone 1
        (some 4)).Swap Option.isNone 1 (some 9)).2 = (some 4, true)) ∧
    (((((zeroSyncMap : SyncMap Nat (Option Nat)).Store Option.isNone 1
        (some 4)).Swap Option.isNone 1 (some 9)).1).Load 1 = (some 9, true)) ∧
    (((zeroSyncMap : SyncMap Nat (Option Nat)).Swap Option.isNone 2
        (some 3)).2 = (none, false)) ∧
    ((((zeroSyncMap : SyncMap Nat (Option Nat)).Swap Option.isNone 2
        (some 3)).1).Load 2 = (some 3, true)) :=
  ⟨((claim_swap_cases Option.isNone
      ((zeroSyncMap : SyncMap Nat (Option Nat)).Store Option.isNone 1
        (some 4)) 1 (some 9)).1 (some 4) (by decide)).1,
   ((claim_swap_cases Option.isNone
      ((zeroSyncMap : SyncMap Nat (Option Nat)).Store Option.isNone 1
        (some 4)) 1 (some 9)).1 (some 4) (by decide)).2.2 (by decide),
   ((claim_swap_cases Option.isNone (zeroSyncMap : SyncMap Nat (Option Nat))
      2 (some 3)).2 (by decide)).1,
   ((claim_swap_cases Option.isNone (zeroSyncMap : SyncMap Nat (Option Nat))
      2 (some 3)).2 (by decide)).2.2 (by decide)⟩

/-- Claim C9: on a zero-initialized map, `Store(k, v)` succeeds directly:
the first operation allocates the backing store (the map is initialized
afterwards and a second `lazyInit` is a no-op, so allocation happens
exactly once), and a subsequent `Load(k)` returns the stored value. -/
theorem claim_zero_value_store (isNil : V → Bool) (k : K) (v : V)
    (hv : isNil v = false) :
    ((zeroSyncMap : SyncMap K V).Store isNil k v).inited = true ∧
    ((zeroSyncMap : SyncMap K V).Store isNil k v).lazyInit =
      (zeroSyncMap : SyncMap K V).Store isNil k v ∧
    ((zeroSyncMap : SyncMap K V).Store isNil k v).Load k = (v, true) :=
  ⟨store_inited zeroSyncMap isNil k v,
   store_lazyInit zeroSyncMap isNil k v,
   load_after_store isNil zeroSyncMap k v hv⟩

/-- Witness for C9 at a concrete key and value. -/
theorem claim_zero_value_store_witness :
    ((zeroSyncMap : SyncMap Nat (Option Nat)).Store Option.isNone 3
      (some 8)).inited = true ∧
    ((zeroSyncMap : SyncMap Nat (Option Nat)).Store Option.isNone 3
      (some 8)).lazyInit =
      (zeroSyncMap : SyncMap Nat (Option Nat)).Store Option.isNone 3 (some 8) ∧
    ((zeroSyncMap : SyncMap Nat (Option Nat)).Store Option.isNone 3
      (some 8)).Load 3 = (some 8, true) :=
  claim_zero_value_store Option.isNone 3 (some 8) (by decide)

/-- Claim C8: `Merge(a, b)` holds every entry of `a` and every entry of
`b`, and on a key present in both, the value from `b` is the one stored:
for well-formed inputs, loading any key from the merged map gives `b`'s
answer when `b` has the key and `a`'s answer otherwise. -/
theorem claim_merge_overlay (isNil : V → Bool) (a b : SyncMap K V)
    (ha : a.WF isNil) (hb : b.WF isNil) (k : K) :
    (Merge isNil a b).Load k =
      if (b.Load k).2 then b.Load k else a.Load k := by
  obtain ⟨hai, hae, han⟩ := ha
  obtain ⟨hbi, hbe, hbn⟩ := hb
  have hla : a.lazyInit = a := lazyInit_of_inited a hai
  have hlb : b.lazyInit = b := lazyInit_of_inited b hbi
  have hbOk : ∀ p ∈ b.lazyInit.entries, entryOk isNil p = true := by
    rw [hlb]
    exact hbe
  have haOk : ∀ p ∈ a.lazyInit.entries, entryOk isNil p = true := by
    rw [hla]
    exact hae
  have hmerge := smLoad_rangeStoreInto isNil b.lazyInit.entries
    (rangeStoreInto isNil zeroSyncMap a.lazyInit.entries) hbOk k
  have hinner := smLoad_rangeStoreInto isNil a.lazyInit.entries
    (zeroSyncMap : SyncMap K V) haOk k
  rw [hlb] at hmerge
  rw [hla] at hmerge hinner
  cases hbl : smLoad b.entries (AnyKey.typed k) with
  | some sv =>
    have hmem := mem_of_smLoad_eq_some _ _ _ hbl
    have hok := hbe _ hmem
    cases sv with
    | typed pv =>
      have hLb : b.Load k = (pv, true) := by
        apply load_typed
        rw [hlb]
        exact hbl
      have hLm : (Merge isNil a b).Load k = (pv, true) := by
        apply load_typed
        show smLoad (rangeStoreInto isNil
          (rangeStoreInto isNil zeroSyncMap a.lazyInit.entries)
          b.lazyInit.entries).lazyInit.entries (AnyKey.typed k) = _
        rw [hla, hlb, hmerge, lookupLast_eq_smLoad _ hbn, hbl]
      rw [hLm, hLb]
      simp
    | nilBox => exact absurd hok (by simp [entryOk])
    | mismatch => exact absurd hok (by simp [entryOk])
  | none =>
    have hLb : b.Load k = (default, false) := by
      apply load_absent
      rw [hlb]
      exact hbl
    have hm2 : smLoad (Merge isNil a b).lazyInit.entries (AnyKey.typed k) =
        smLoad (rangeStoreInto isNil (zeroSyncMap : SyncMap K V)
          a.entries).lazyInit.entries (AnyKey.typed k) := by
      show smLoad (rangeStoreInto isNil
        (rangeStoreInto isNil zeroSyncMap a.lazyInit.entries)
        b.lazyInit.entries).lazyInit.entries (AnyKey.typed k) = _
      rw [hla, hlb, hmerge, lookupLast_eq_smLoad _ hbn, hbl]
    cases hal : smLoad a.entries (AnyKey.typed k) with
    | some sv =>
      have hmem := mem_of_smLoad_eq_some _ _ _ hal
      have hok := hae _ hmem
      cases sv with
      | typed pv =>
        have hLa : a.Load k = (pv, true) := by
          apply load_typed
          rw [hla]
          exact hal
        have hLm : (Merge isNil a b).Load k = (pv, true) := by
          apply load_typed
          rw [hm2, hinner, lookupLast_eq_smLoad _ han, hal]
        rw [hLm, hLb, hLa]
        simp
      | nilBox => exact absurd hok (by simp [entryOk])
      | mismatch => exact absurd hok (by simp [entryOk])
    | none =>
      have hLa : a.Load k = (default, false) := by
        apply load_absent
        rw [hla]
        exact hal
      have hLm : (Merge isNil a b).Load k = (default, false) := by
        apply load_absent
        rw [hm2, hinner, lookupLast_eq_smLoad _ han, hal]
        rfl
      rw [hLm, hLb, hLa]
      simp

/-- Witness for C8 at the concrete example of the claim: merging
`{1 : x, 2 : y}` with `{2 : z, 3 : w}` yields `x`, `z` and `w` at keys
1, 2 and 3. -/
theorem claim_merge_overlay_witness :
    ((Merge (fun _ => false)
      (((zeroSyncMap : SyncMap Nat String).Store (fun _ => false) 1
        "x").Store (fun _ => false) 2 "y")
      (((zeroSyncMap : SyncMap Nat String).Store (fun _ => false) 2
        "z").Store (fun _ => false) 3 "w")).Load 1 = ("x", true)) ∧
    ((Merge (fun _ => false)
      (((zeroSyncMap : SyncMap Nat String).Store (fun _ => false) 1
        "x").Store (fun _ => false) 2 "y")
      (((zeroSyncMap : SyncMap Nat String).Store (fun _ => false) 2
        "z").Store (fun _ => false) 3 "w")).Load 2 = ("z", true)) ∧
    ((Merge (fun _ => false)
      (((zeroSyncMap : SyncMap Nat String).Store (fun _ => false) 1
        "x").Store (fun _ => false) 2 "y")
      (((zeroSyncMap : SyncMap Nat String).Store (fun _ => false) 2
        "z").Store (fun _ => false) 3 "w")).Load 3 = ("w", true)) := by
  have h1 := claim_merge_overlay (fun _ => false)
    (((zeroSyncMap : SyncMap Nat String).Store (fun _ => false) 1
      "x").Store (fun _ => false) 2 "y")
    (((zeroSyncMap : SyncMap Nat String).Store (fun _ => false) 2
      "z").Store (fun _ => false) 3 "w")
    (by constructor
        · rfl
        · constructor
          · decide
          · decide)
    (by constructor
        · rfl
        · constructor
          · decide
          · decide) 1
  have h2 := claim_merge_overlay (fun _ => false)
    (((zeroSyncMap : SyncMap Nat String).Store (fun _ => false) 1
      "x").Store (fun _ => false) 2 "y")
    (((zeroSyncMap : SyncMap Nat String).Store (fun _ => false) 2
      "z").Store (fun _ => false) 3 "w")
    (by constructor
        · rfl
        · constructor
          · decide
          · decide)
    (by constructor
        · rfl
        · constructor
          · decide
          · decide) 2
  have h3 := claim_merge_overlay (fun _ => false)
    (((zeroSyncMap : SyncMap Nat String).Store (fun _ => false) 1
      "x").Store (fun _ => false) 2 "y")
    (((zeroSyncMap : SyncMap Nat String).Store (fun _ => false) 2
      "z").Store (fun _ => false) 3 "w")
    (by constructor
        · rfl
        · constructor
          · decide
          · decide)
    (by constructor
        · rfl
        · constructor
          · decide
          · decide) 3
  refine ⟨?_, ?_, ?_⟩
  · rw [h1]
    decide
  · rw [h2]
    decide
  · rw [h3]
    decide

/-- Claim C10: `Get` agrees with `GetOrDefault` invoked with no variadic
default argument, on every map state and key. -/
theorem claim_get_eq_getOrDefault (m : SyncMap K V) (k : K) :
    m.Get k = m.GetOrDefault k [] := by
  unfold SyncMap.Get SyncMap.GetOrDefault
  rfl

end AsyncMap
